import Mathlib

/-!
Verification development for the HomeRunOdds repository.

The Python sources are embedded shallowly:
  * American odds are integers (`ℤ`); implied probabilities and betting
    lines are exact rationals (`ℚ`), modelling Python's real arithmetic.
  * Python `int(x)` truncates toward zero; it is modelled by `int_trunc`.
  * Python dicts keyed by strings are modelled as association lists with
    Python's update semantics (existing key keeps its position and gets the
    new value, a new key is appended), matching insertion-ordered dicts.
  * `merge_with_cached_data` mutates some of its inputs in place, so its
    embedding returns the result together with the post-call values of both
    arguments.
-/

namespace HomeRunOdds

/-- Python `int()` applied to a real value: truncation toward zero. -/
def int_trunc (q : ℚ) : ℤ :=
  if q < 0 then ⌈q⌉ else ⌊q⌋

/-- `american_to_probability` from `homerun_odds.py`:
`100/(odds+100)` for positive odds, else `|odds|/(|odds|+100)`. -/
def american_to_probability (odds : ℤ) : ℚ :=
  if odds > 0 then 100 / ((odds : ℚ) + 100)
  else ((|odds| : ℤ) : ℚ) / (((|odds| : ℤ) : ℚ) + 100)

/-- `probability_to_american` from `homerun_odds.py`:
`int(-prob*100/(1-prob))` for `prob >= 0.5`, else `int((1-prob)*100/prob)`. -/
def probability_to_american (prob : ℚ) : ℤ :=
  if prob ≥ 1/2 then int_trunc ((-prob) * 100 / (1 - prob))
  else int_trunc ((1 - prob) * 100 / prob)

/-- `calculate_consensus_odds` from `homerun_odds.py`: 0 on an empty list,
otherwise the probability-space average mapped back to American odds. -/
def calculate_consensus_odds (odds_list : List ℤ) : ℤ :=
  if odds_list.isEmpty then 0
  else
    probability_to_american
      ((odds_list.map american_to_probability).sum / (odds_list.length : ℚ))

/-- The target market key (`MARKETS` in `homerun_odds.py`). -/
def MARKETS : String := "batter_home_runs"

/-- The sport key (`SPORT` in `homerun_odds.py`). -/
def SPORT : String := "baseball_mlb"

/-- One `(sportsbook, odds)` entry of an `individual_books` list. -/
structure BookOdds where
  sportsbook : String
  odds : ℤ
deriving DecidableEq

/-- The `{'consensus': ..., 'individual_books': [...]}` dict attached to a
player for one outcome type. -/
structure OddsSide where
  consensus : ℤ
  individual_books : List BookOdds
deriving DecidableEq

/-- A processed player dict as built by `process_home_run_props`.  The
dynamically-keyed `f"{outcome_type.lower()}_odds"` entries are modelled as the
insertion-ordered association list `sides`. -/
structure Player where
  player_name : String
  line : ℚ
  line_display : String
  sportsbook_count : ℕ
  sportsbooks : List String
  odds_by_book : List (String × List (String × ℤ))
  sides : List (String × OddsSide)
deriving DecidableEq

/-- `player.get(k, {}).get('consensus', 0)` for a side key `k` such as
`"over_odds"`. -/
def Player.getSide (p : Player) (k : String) : Option OddsSide :=
  (p.sides.find? (fun kv => kv.1 == k)).map (fun kv => kv.2)

/-- `player.get(k, {}).get('consensus', 0)`. -/
def Player.getConsensus (p : Player) (k : String) : ℤ :=
  match p.getSide k with
  | some s => s.consensus
  | none => 0

/-- `player.get(k, {}).get('individual_books', [])`. -/
def Player.sideBooks (p : Player) (k : String) : List BookOdds :=
  match p.getSide k with
  | some s => s.individual_books
  | none => []

/-- A processed game dict.  `odds_status` and `last_updated` are optional keys
added only by the cache merger. -/
structure Game where
  game_id : String
  away_team : String
  home_team : String
  commence_time : String
  game_time_formatted : String
  players : List Player
  odds_status : Option String := none
  last_updated : Option String := none
deriving DecidableEq

/-- The `metadata` block of a processed snapshot. -/
structure Metadata where
  generated_at : String
  date : String
  timezone : String
  sport : String
  market : String
deriving DecidableEq

/-- The `summary` block.  `live_games`/`cached_games` exist only after a
merge, so they are optional keys. -/
structure Summary where
  total_games : ℕ
  games_with_props : ℕ
  total_players : ℕ
  live_games : Option ℕ := none
  cached_games : Option ℕ := none
deriving DecidableEq

/-- A whole processed snapshot (`processed_data` / the daily cache file). -/
structure OddsData where
  metadata : Metadata
  summary : Summary
  games : List Game
deriving DecidableEq

/-- Python dict update for a string-keyed dict: an existing key keeps its
position and receives the new value, a new key is appended at the end. -/
def pyUpsert {α : Type} (d : List (String × α)) (k : String) (v : α) :
    List (String × α) :=
  if d.any (fun kv => kv.1 == k) then
    d.map (fun kv => if kv.1 == k then (k, v) else kv)
  else d ++ [(k, v)]

/-- The dict comprehension `{game['game_id']: game for game in games}`. -/
def pyDict (games : List Game) : List (String × Game) :=
  games.foldl (fun d g => pyUpsert d g.game_id g) []

/-- Dict lookup on an association list. -/
def dictFind (d : List (String × Game)) (k : String) : Option Game :=
  (d.find? (fun kv => kv.1 == k)).map (fun kv => kv.2)

/-- In-place effect of the second merge loop on the fresh games list:
`new_game['odds_status'] = 'live'` is executed on the dict object stored in
`new_games_lookup`, i.e. on the last occurrence of each `game_id` in the fresh
list, whenever that id is absent from the cached games. -/
def mutateFresh (cachedIds : List String) : List Game → List Game
  | [] => []
  | g :: rest =>
      (if g.game_id ∉ rest.map Game.game_id ∧ g.game_id ∉ cachedIds then
        { g with odds_status := some "live" }
      else g) :: mutateFresh cachedIds rest

/-- The summary recomputation at the end of `merge_with_cached_data`. -/
def recomputeSummary (merged_games : List Game) : Summary :=
  { total_games := merged_games.length
    games_with_props := merged_games.length
    total_players := (merged_games.map (fun g => g.players.length)).sum
    live_games :=
      some ((merged_games.filter (fun g => g.odds_status == some "live")).length)
    cached_games :=
      some ((merged_games.filter (fun g => g.odds_status == some "cached")).length) }

/-- Result of a call to `merge_with_cached_data`: the returned snapshot plus
the post-call values of both arguments (the function mutates game dicts held
by its first argument; `none` models the `{}` returned by a cache miss). -/
structure MergeResult where
  result : OddsData
  new_after : OddsData
  cached_after : Option OddsData
deriving DecidableEq

/-- `merge_with_cached_data` from `homerun_odds.py`.  Mirrors the source:
early return when the prior snapshot is absent or has no games; otherwise one
pass over the cached games (fresh version if the id is still live, else a
copy tagged `cached` with `last_updated` from the prior metadata), then the
fresh games whose ids were not cached, tagged `live` in place. -/
def merge_with_cached_data (new_data : OddsData) (cached_data : Option OddsData) :
    MergeResult :=
  match cached_data with
  | none => ⟨new_data, new_data, none⟩
  | some cached =>
    if cached.games.isEmpty then ⟨new_data, new_data, some cached⟩
    else
      let lookup := pyDict new_data.games
      let cachedIds := cached.games.map Game.game_id
      let mergedCached := cached.games.map (fun cg =>
        match dictFind lookup cg.game_id with
        | some g => g
        | none =>
            { cg with
              odds_status := some "cached"
              last_updated := some cached.metadata.generated_at })
      let newAdds := lookup.filterMap (fun kv =>
        if kv.1 ∈ cachedIds then none
        else some { kv.2 with odds_status := some "live" })
      let merged_games := mergedCached ++ newAdds
      ⟨{ new_data with
          games := merged_games
          summary := recomputeSummary merged_games },
       { new_data with games := mutateFresh cachedIds new_data.games },
       some cached⟩

/-! ### Raw API data and `process_home_run_props` -/

/-- A raw outcome entry `{description, name, point?, price}`. -/
structure RawOutcome where
  description : String
  name : String
  point : Option ℚ
  price : ℤ
deriving DecidableEq

/-- A raw market entry `{key, outcomes}`. -/
structure RawMarket where
  key : String
  outcomes : List RawOutcome
deriving DecidableEq

/-- A raw bookmaker entry `{title, markets}`. -/
structure RawBookmaker where
  title : String
  markets : List RawMarket
deriving DecidableEq

/-- A raw game record as consumed by `process_home_run_props`. -/
structure RawGame where
  id : String
  sport_key : String
  sport_title : String
  commence_time : String
  home_team : String
  away_team : String
  bookmakers : List RawBookmaker
deriving DecidableEq

/-- `f"{line}" if line != 0.5 else "To Hit HR"`. -/
def lineDisplay (line : ℚ) : String :=
  if line = 1/2 then "To Hit HR" else toString line

/-- One grouping entry of the `player_props` dict, keyed by
`f"{player_name}_{line}"` (that key is injective in the pair
`(player_name, line)`, which is used directly as the model key). -/
structure PropGroup where
  player_name : String
  line : ℚ
  line_display : String
  odds : List (String × List BookOdds)
  sportsbooks : List String
deriving DecidableEq

/-- Appending one `{sportsbook, odds}` entry under an outcome type, as in
`player_props[key]['odds'][outcome_type].append(...)` (the list is created on
first use, so every stored list is nonempty). -/
def addBook (odds : List (String × List BookOdds)) (ty : String) (b : BookOdds) :
    List (String × List BookOdds) :=
  if odds.any (fun kv => kv.1 == ty) then
    odds.map (fun kv => if kv.1 == ty then (kv.1, kv.2 ++ [b]) else kv)
  else odds ++ [(ty, [b])]

/-- Processing one raw outcome inside the grouping loop of
`process_home_run_props`. -/
def addOutcome (groups : List ((String × ℚ) × PropGroup)) (bkTitle : String)
    (o : RawOutcome) : List ((String × ℚ) × PropGroup) :=
  let line := o.point.getD (1/2)
  let key : String × ℚ := (o.description, line)
  let upd := fun (pg : PropGroup) =>
    { pg with
      odds := addBook pg.odds o.name ⟨bkTitle, o.price⟩
      sportsbooks :=
        if bkTitle ∈ pg.sportsbooks then pg.sportsbooks
        else pg.sportsbooks ++ [bkTitle] }
  if groups.any (fun kv => kv.1 == key) then
    groups.map (fun kv => if kv.1 == key then (kv.1, upd kv.2) else kv)
  else
    groups ++ [(key, upd ⟨o.description, line, lineDisplay line, [], []⟩)]

/-- The whole grouping pass over one game's bookmakers (markets whose key is
not the target market are skipped). -/
def collectGroups (g : RawGame) : List ((String × ℚ) × PropGroup) :=
  g.bookmakers.foldl (fun acc bk =>
    bk.markets.foldl (fun acc2 mk =>
      if mk.key == MARKETS then
        mk.outcomes.foldl (fun acc3 o => addOutcome acc3 bk.title o) acc2
      else acc2) acc) []

/-- `odds_by_book[book_name][outcome_type.lower()] = odds`, creating the inner
dict on first use. -/
def addByBook (obb : List (String × List (String × ℤ))) (book ty : String)
    (v : ℤ) : List (String × List (String × ℤ)) :=
  if obb.any (fun kv => kv.1 == book) then
    obb.map (fun kv => if kv.1 == book then (kv.1, pyUpsert kv.2 ty v) else kv)
  else obb ++ [(book, pyUpsert [] ty v)]

/-- Building the processed player dict from one grouping entry (the
per-outcome-type loop computing consensus odds and `odds_by_book`). -/
def buildPlayer (pg : PropGroup) : Player :=
  let init : Player :=
    { player_name := pg.player_name
      line := pg.line
      line_display := pg.line_display
      sportsbook_count := pg.sportsbooks.length
      sportsbooks := pg.sportsbooks
      odds_by_book := []
      sides := [] }
  pg.odds.foldl (fun p kv =>
    let ty := kv.1.toLower
    let odds_values := kv.2.map BookOdds.odds
    { p with
      sides :=
        pyUpsert p.sides (ty ++ "_odds")
          ⟨calculate_consensus_odds odds_values, kv.2⟩
      odds_by_book :=
        kv.2.foldl (fun obb b => addByBook obb b.sportsbook ty b.odds)
          p.odds_by_book }) init

/-- The market-presence test of lines 310–319 of `homerun_odds.py`: some
bookmaker has a market entry with the target key. -/
def hasTargetMarket (g : RawGame) : Bool :=
  g.bookmakers.any (fun bk => bk.markets.any (fun mk => mk.key == MARKETS))

/-- Per-game processing: `none` when the game has no target-market entry
(the `continue` branch), otherwise the processed game dict with its players
sorted by name.  The two string parameters model the timezone-conversion
library calls on `commence_time` (external to this repository). -/
def processGame (toIso toFmt : String → String) (g : RawGame) : Option Game :=
  if hasTargetMarket g then
    let players := (collectGroups g).map (fun kv => buildPlayer kv.2)
    some
      { game_id := g.id
        away_team := g.away_team
        home_team := g.home_team
        commence_time := toIso g.commence_time
        game_time_formatted := toFmt g.commence_time
        players :=
          players.mergeSort (fun a b => decide (a.player_name ≤ b.player_name))
        odds_status := none
        last_updated := none }
  else none

/-- `process_home_run_props` from `homerun_odds.py`.  `generated_at`/`date`
stand for the `datetime.now` values; the fold carries the games list and the
`games_with_props` / `total_players` counters exactly as the source loop
does. -/
def process_home_run_props (generated_at date : String)
    (toIso toFmt : String → String) (games_data : List RawGame) : OddsData :=
  let st := games_data.foldl
    (fun (st : List Game × ℕ × ℕ) g =>
      match processGame toIso toFmt g with
      | some gd => (st.1 ++ [gd], st.2.1 + 1, st.2.2 + gd.players.length)
      | none => st)
    ([], 0, 0)
  { metadata := ⟨generated_at, date, "US/Eastern", SPORT, MARKETS⟩
    summary :=
      { total_games := games_data.length
        games_with_props := st.2.1
        total_players := st.2.2 }
    games := st.1 }

/-! ### `create_best_odds_dataset` from `export_json_feed.py` -/

/-- The implied-probability expression of lines 138–139 (branching on `< 0`,
unlike `american_to_probability` which branches on `> 0`). -/
def impliedProb (o : ℤ) : ℚ :=
  if o < 0 then ((|o| : ℤ) : ℚ) / (((|o| : ℤ) : ℚ) + 100)
  else 100 / ((o : ℚ) + 100)

/-- Python `round(x, 3)`: nearest multiple of 1/1000, ties to even. -/
def round3 (q : ℚ) : ℚ :=
  let y := q * 1000
  let f := ⌊y⌋
  let r := y - (f : ℚ)
  (if r < 1/2 then (f : ℚ)
   else if 1/2 < r then (f : ℚ) + 1
   else if f % 2 = 0 then (f : ℚ) else (f : ℚ) + 1) / 1000

/-- Python `max(lst, key=lambda x: x['odds'], default=...)` without the
default: the first element of maximal odds (the accumulator is replaced only
on a strictly greater key). -/
def firstMaxBy (l : List BookOdds) : Option BookOdds :=
  l.foldl
    (fun acc b =>
      match acc with
      | none => some b
      | some c => if c.odds < b.odds then some b else some c)
    none

/-- One row of the best-odds feed. -/
structure BestOddsRow where
  player_name : String
  line_display : String
  game_info : String
  game_time : String
  odds_status : String
  consensus_yes : ℤ
  consensus_no : ℤ
  implied_yes : ℚ
  implied_no : ℚ
  best_yes : BookOdds
  best_no : BookOdds
  sportsbook_count : ℕ
  value_score : ℤ
  last_updated : Option String
deriving DecidableEq

/-- The row built for one (game, player) pair that passes the
`if yes_odds and no_odds` filter. -/
def mkBestOddsRow (g : Game) (p : Player) : BestOddsRow :=
  let yes := p.getConsensus "over_odds"
  let no := p.getConsensus "under_odds"
  { player_name := p.player_name
    line_display := p.line_display
    game_info := g.away_team ++ " @ " ++ g.home_team
    game_time := g.game_time_formatted
    odds_status := g.odds_status.getD "unknown"
    consensus_yes := yes
    consensus_no := no
    implied_yes := round3 (impliedProb yes)
    implied_no := round3 (impliedProb no)
    best_yes := (firstMaxBy (p.sideBooks "over_odds")).getD ⟨"Consensus", yes⟩
    best_no := (firstMaxBy (p.sideBooks "under_odds")).getD ⟨"Consensus", no⟩
    sportsbook_count := p.sportsbook_count
    value_score := if 150 < yes then |yes| else if 150 < no then |no| else 0
    last_updated :=
      if g.odds_status == some "cached" then
        match g.last_updated with
        | some s => if s == "" then none else some s
        | none => none
      else none }

/-- The unsorted row list: all (game, player) pairs whose two consensus
values are truthy (nonzero), in traversal order. -/
def bestOddsRows (data : OddsData) : List BestOddsRow :=
  data.games.flatMap (fun g =>
    g.players.filterMap (fun p =>
      if p.getConsensus "over_odds" ≠ 0 ∧ p.getConsensus "under_odds" ≠ 0 then
        some (mkBestOddsRow g p)
      else none))

/-- The sort key comparison `(-value_score, player_name)` ascending. -/
def rowLE (a b : BestOddsRow) : Bool :=
  decide (b.value_score < a.value_score ∨
    (a.value_score = b.value_score ∧ a.player_name ≤ b.player_name))

/-- The output shape of `create_best_odds_dataset` (descriptive metadata and
summary extensions flattened into fields). -/
structure BestOddsDataset where
  metadata : Metadata
  format : String
  description : String
  use_case : String
  summary : Summary
  total_entries : ℕ
  high_value_bets : ℕ
  players : List BestOddsRow
deriving DecidableEq

/-- `create_best_odds_dataset` from `export_json_feed.py`. -/
def create_best_odds_dataset (data : OddsData) : BestOddsDataset :=
  let sorted := (bestOddsRows data).mergeSort rowLE
  { metadata := data.metadata
    format := "best_odds"
    description := "Best odds and value bets ranked by favorability"
    use_case := "Value betting, line shopping, odds comparison"
    summary := data.summary
    total_entries := sorted.length
    high_value_bets := (sorted.filter (fun p => 200 < p.value_score)).length
    players := sorted }

/-! ### Concrete fixtures used by counterexamples and witnesses -/

/-- A minimal processed player with one contributing book on each side. -/
def samplePlayer (nm : String) (yes no : ℤ) : Player :=
  { player_name := nm
    line := mkRat 1 2
    line_display := "To Hit HR"
    sportsbook_count := 1
    sportsbooks := ["FanDuel"]
    odds_by_book := [("FanDuel", [("over", yes), ("under", no)])]
    sides := [("over_odds", ⟨yes, [⟨"FanDuel", yes⟩]⟩),
              ("under_odds", ⟨no, [⟨"FanDuel", no⟩]⟩)] }

/-- Cached-only game A of the merge scenario. -/
def gameA : Game :=
  { game_id := "a"
    away_team := "AwayA"
    home_team := "HomeA"
    commence_time := "2025-06-01T17:00:00-04:00"
    game_time_formatted := "01:00 PM EDT"
    players := [samplePlayer "Player A" 200 (-260)] }

/-- Game B as stored in the prior snapshot. -/
def gameB : Game :=
  { game_id := "b"
    away_team := "AwayB"
    home_team := "HomeB"
    commence_time := "2025-06-01T19:00:00-04:00"
    game_time_formatted := "03:00 PM EDT"
    players := [samplePlayer "Player B" 300 (-400)] }

/-- Game B as freshly fetched (updated odds). -/
def gameBFresh : Game :=
  { gameB with players := [samplePlayer "Player B" 320 (-430)] }

/-- Fresh-only game C of the merge scenario. -/
def gameC : Game :=
  { game_id := "c"
    away_team := "AwayC"
    home_team := "HomeC"
    commence_time := "2025-06-01T20:00:00-04:00"
    game_time_formatted := "04:00 PM EDT"
    players := [samplePlayer "Player C" 155 (-175)] }

/-- Metadata of the fresh fetch. -/
def metaFresh : Metadata :=
  ⟨"2025-06-01T12:00:00-04:00", "2025-06-01", "US/Eastern", SPORT, MARKETS⟩

/-- Metadata of the prior snapshot. -/
def metaPrior : Metadata :=
  ⟨"2025-06-01T10:00:00-04:00", "2025-06-01", "US/Eastern", SPORT, MARKETS⟩

/-- Fresh data of the merge scenario: games B (updated) and C. -/
def freshData : OddsData :=
  ⟨metaFresh, ⟨2, 2, 2, none, none⟩, [gameBFresh, gameC]⟩

/-- Prior snapshot of the merge scenario: games A and B. -/
def priorData : OddsData :=
  ⟨metaPrior, ⟨2, 2, 2, none, none⟩, [gameA, gameB]⟩

/-- A one-game snapshot used by exporter witnesses. -/
def bestOddsFixture : OddsData :=
  ⟨metaFresh, ⟨1, 1, 1, none, none⟩, [gameA]⟩

/-- The accumulator recursion underlying `firstMaxBy` on a nonempty list,
used to state its specification. -/
def maxAux (x : BookOdds) (xs : List BookOdds) : BookOdds :=
  xs.foldl (fun c b => if c.odds < b.odds then b else c) x

/-! ## Theorems -/

/-! ### Helper lemmas about truncation and the odds converter -/

theorem int_trunc_intCast (n : ℤ) : int_trunc ((n : ℤ) : ℚ) = n := by
  unfold int_trunc
  split <;> simp

theorem int_trunc_of_neg {q : ℚ} (h : q < 0) : int_trunc q = ⌈q⌉ := if_pos h

theorem int_trunc_of_nonneg {q : ℚ} (h : 0 ≤ q) : int_trunc q = ⌊q⌋ := by
  rw [int_trunc, if_neg (not_lt.mpr h)]

theorem a2p_pos {o : ℤ} (h : o ≠ 0) : 0 < american_to_probability o := by
  by_cases ho : o > 0
  · rw [american_to_probability, if_pos ho]
    have h1 : (0:ℚ) < (o:ℚ) := by exact_mod_cast ho
    apply div_pos <;> linarith
  · rw [american_to_probability, if_neg ho]
    have h1 : (0:ℤ) < |o| := abs_pos.mpr h
    have h2 : (0:ℚ) < ((|o| : ℤ) : ℚ) := by exact_mod_cast h1
    apply div_pos h2
    linarith

theorem a2p_lt_one (o : ℤ) : american_to_probability o < 1 := by
  by_cases ho : o > 0
  · rw [american_to_probability, if_pos ho]
    have h1 : (0:ℚ) < (o:ℚ) := by exact_mod_cast ho
    rw [div_lt_one (by linarith)]
    linarith
  · rw [american_to_probability, if_neg ho]
    have h2 : (0:ℚ) ≤ ((|o| : ℤ) : ℚ) := by exact_mod_cast abs_nonneg o
    rw [div_lt_one (by linarith)]
    linarith

theorem probs_sum_pos {l : List ℤ} (hne : l ≠ []) (h : ∀ o ∈ l, o ≠ 0) :
    0 < (l.map american_to_probability).sum := by
  apply List.sum_pos
  · intro x hx
    obtain ⟨o, ho, rfl⟩ := List.mem_map.mp hx
    exact a2p_pos (h o ho)
  · simpa using hne

theorem probs_sum_le (l : List ℤ) :
    (l.map american_to_probability).sum ≤ (l.length : ℚ) := by
  induction l with
  | nil => simp
  | cons o t ih =>
    simp only [List.map_cons, List.sum_cons, List.length_cons]
    push_cast
    have := a2p_lt_one o
    linarith

theorem probs_sum_lt {l : List ℤ} (hne : l ≠ []) :
    (l.map american_to_probability).sum < (l.length : ℚ) := by
  cases l with
  | nil => exact absurd rfl hne
  | cons o t =>
    simp only [List.map_cons, List.sum_cons, List.length_cons]
    push_cast
    have h1 := a2p_lt_one o
    have h2 := probs_sum_le t
    linarith

theorem p2a_le_neg {p : ℚ} (h : 1/2 ≤ p) (h1 : p < 1) :
    probability_to_american p ≤ -100 := by
  rw [probability_to_american, if_pos h]
  have hp0 : (0:ℚ) < p := lt_of_lt_of_le (by norm_num) h
  have hden : (0:ℚ) < 1 - p := by linarith
  have hq : (-p) * 100 / (1 - p) ≤ -100 := by
    rw [div_le_iff₀ hden]
    nlinarith
  have hq0 : (-p) * 100 / (1 - p) < 0 := lt_of_le_of_lt hq (by norm_num)
  rw [int_trunc_of_neg hq0]
  calc ⌈(-p) * 100 / (1 - p)⌉ ≤ ⌈((-100 : ℤ) : ℚ)⌉ :=
        Int.ceil_le_ceil (by push_cast; linarith)
    _ = -100 := Int.ceil_intCast _

theorem p2a_ge_pos {p : ℚ} (h0 : 0 < p) (h : p < 1/2) :
    100 ≤ probability_to_american p := by
  rw [probability_to_american, if_neg (not_le.mpr h)]
  have hq : (100 : ℚ) < (1 - p) * 100 / p := by
    rw [lt_div_iff₀ h0]
    nlinarith
  rw [int_trunc_of_nonneg (by linarith)]
  exact Int.le_floor.mpr (by push_cast; linarith)

theorem consensus_abs_ge {l : List ℤ} (hne : l ≠ []) (h : ∀ o ∈ l, o ≠ 0) :
    100 ≤ |calculate_consensus_odds l| := by
  have hlen : (0:ℚ) < (l.length : ℚ) := by
    have := List.length_pos.mpr hne
    exact_mod_cast this
  have hempty : l.isEmpty = false := by
    cases l with
    | nil => exact absurd rfl hne
    | cons a t => rfl
  rw [calculate_consensus_odds, hempty]
  simp only [Bool.false_eq_true, if_false]
  set avg := (l.map american_to_probability).sum / (l.length : ℚ) with havg
  have h0 : 0 < avg := div_pos (probs_sum_pos hne h) hlen
  have h1 : avg < 1 := (div_lt_one hlen).mpr (probs_sum_lt hne)
  by_cases hc : 1/2 ≤ avg
  · have hle := p2a_le_neg hc h1
    rw [abs_of_nonpos (by linarith)]
    linarith
  · have hge := p2a_ge_pos h0 (not_le.mp hc)
    rw [abs_of_nonneg (by linarith)]
    linarith

/-! ### Claim C4 -/

/-- C4 counterexample: at `p = 0.59` the code computes `int(-59*100/41) =
-143` (truncation toward zero), while rounding `-143.902…` to the nearest
integer gives `-144`, so `probability_to_american` does not round to the
nearest integer as the claim states. -/
theorem probability_to_american_not_round :
    probability_to_american (59/100) = -143 ∧
    round ((-(59:ℚ)/100) * 100 / (1 - 59/100)) = -144 ∧
    (-143 : ℤ) ≠ -144 := by
  refine ⟨?_, ?_, by norm_num⟩
  · norm_num [probability_to_american, int_trunc, Int.ceil_eq_iff]
  · rw [round_eq]
    norm_num [Int.floor_eq_iff]

/-- C4 amended: for every probability `0 < p < 1`, `probability_to_american p`
equals the branch formula truncated toward zero — the ceiling of
`-p*100/(1-p)` when `p ≥ 0.5` (that value being negative), and the floor of
`(1-p)*100/p` otherwise (that value being positive) — not the nearest
integer. -/
theorem probability_to_american_truncates (p : ℚ) (h0 : 0 < p) (h1 : p < 1) :
    (1/2 ≤ p → probability_to_american p = ⌈(-p) * 100 / (1 - p)⌉) ∧
    (p < 1/2 → probability_to_american p = ⌊(1 - p) * 100 / p⌋) := by
  constructor
  · intro hp
    rw [probability_to_american, if_pos hp]
    apply int_trunc_of_neg
    have hden : (0:ℚ) < 1 - p := by linarith
    have hpos : (0:ℚ) < p * 100 / (1 - p) := div_pos (by nlinarith) hden
    have heq : (-p) * 100 / (1 - p) = -(p * 100 / (1 - p)) := by ring
    rw [heq]
    linarith
  · intro hp
    rw [probability_to_american, if_neg (not_le.mpr hp)]
    apply int_trunc_of_nonneg
    have hpos : (0:ℚ) < (1 - p) * 100 / p := div_pos (by nlinarith) h0
    linarith

/-- Witness for C4 amended at `p = 3/4`. -/
theorem probability_to_american_truncates_witness :
    ((0:ℚ) < 3/4 ∧ (3/4:ℚ) < 1 ∧ (1/2:ℚ) ≤ 3/4) ∧
    probability_to_american (3/4) = ⌈(-(3/4:ℚ)) * 100 / (1 - 3/4)⌉ :=
  ⟨by norm_num,
   (probability_to_american_truncates (3/4) (by norm_num) (by norm_num)).1
     (by norm_num)⟩

/-! ### Claim C5 -/

/-- C5 counterexample: `o = 100` is a nonzero (and valid, even-money)
American odds integer, yet the round trip returns `-100`, not `100`, and
likewise `calculate_consensus_odds [100] = -100`; `-100` is not `100` within
any rounding. -/
theorem roundtrip_fails_at_plus100 :
    probability_to_american (american_to_probability 100) = -100 ∧
    calculate_consensus_odds [100] = -100 ∧
    ((-100 : ℤ) ≠ 100) := by
  refine ⟨?_, ?_, by norm_num⟩
  · norm_num [probability_to_american, american_to_probability, int_trunc,
      Int.ceil_eq_iff]
  · norm_num [calculate_consensus_odds, probability_to_american,
      american_to_probability, int_trunc, Int.ceil_eq_iff]

/-- C5 amended: for every American odds integer `o` with `o ≤ -100` or
`o > 100`, the round trip `probability_to_american (american_to_probability o)`
returns `o` exactly, and `calculate_consensus_odds [o] = o`; the boundary
`o = 100` maps to the equivalent even-money price `-100` instead.  Also
`calculate_consensus_odds [] = 0`. -/
theorem american_roundtrip (o : ℤ) (h : o ≤ -100 ∨ 100 < o) :
    probability_to_american (american_to_probability o) = o ∧
    calculate_consensus_odds [o] = o ∧
    calculate_consensus_odds [] = 0 := by
  have hrt : probability_to_american (american_to_probability o) = o := by
    rcases h with hneg | hpos
    · have hno : ¬ o > 0 := by omega
      rw [american_to_probability, if_neg hno, abs_of_nonpos (by omega : o ≤ 0)]
      set q : ℚ := ((-o : ℤ) : ℚ) with hqdef
      have hq100 : (100 : ℚ) ≤ q := by
        rw [hqdef]
        exact_mod_cast (by omega : (100:ℤ) ≤ -o)
      have hden : (0:ℚ) < q + 100 := by linarith
      have hp : q / (q + 100) ≥ 1/2 := by
        rw [ge_iff_le, le_div_iff₀ hden]
        linarith
      rw [probability_to_american, if_pos hp]
      have hne : q + 100 ≠ 0 := ne_of_gt hden
      have hval : (-(q / (q + 100))) * 100 / (1 - q / (q + 100)) = -q := by
        rw [div_eq_iff]
        · field_simp
        · have hsub : 1 - q / (q + 100) = 100 / (q + 100) := by
            field_simp
          rw [hsub]
          positivity
      rw [hval]
      have hcast : -q = ((o : ℤ) : ℚ) := by
        rw [hqdef]
        push_cast
        ring
      rw [hcast, int_trunc_intCast]
    · have ho : o > 0 := by omega
      rw [american_to_probability, if_pos ho]
      set q : ℚ := ((o : ℤ) : ℚ) with hqdef
      have hq100 : (100 : ℚ) < q := by
        rw [hqdef]
        exact_mod_cast hpos
      have hden : (0:ℚ) < q + 100 := by linarith
      have hne : q + 100 ≠ 0 := ne_of_gt hden
      have hp : ¬ (100 / (q + 100) ≥ 1/2) := by
        apply not_le.mpr
        rw [div_lt_iff₀ hden]
        linarith
      rw [probability_to_american, if_neg hp]
      have hval : (1 - 100 / (q + 100)) * 100 / (100 / (q + 100)) = q := by
        rw [div_eq_iff]
        · field_simp
        · positivity
      rw [hval, hqdef, int_trunc_intCast]
  refine ⟨hrt, ?_, rfl⟩
  have hone : (([o].map american_to_probability).sum / (([o].length : ℕ) : ℚ)) =
      american_to_probability o := by
    simp
  rw [calculate_consensus_odds]
  simp only [List.isEmpty_cons, Bool.false_eq_true, if_false]
  rw [hone]
  exact hrt

/-- Witness for C5 amended at `o = -150`. -/
theorem american_roundtrip_witness :
    probability_to_american (american_to_probability (-150)) = -150 ∧
    calculate_consensus_odds [-150] = -150 :=
  ⟨(american_roundtrip (-150) (Or.inl (by norm_num))).1,
   (american_roundtrip (-150) (Or.inl (by norm_num))).2.1⟩

/-! ### Claim C6 -/

/-- C6: `calculate_consensus_odds [-150, 130]` returns `-107`, which lies
strictly between `-150` and `+130`, is not the arithmetic mean `-10` of the
raw odds, and equals the American-odds image of the arithmetic mean of the
two implied probabilities (the probability-space average). -/
theorem consensus_between_prices :
    calculate_consensus_odds [-150, 130] = -107 ∧
    ((-150 : ℤ) < -107 ∧ (-107 : ℤ) < 130) ∧
    ((-107 : ℤ) ≠ -10) ∧
    calculate_consensus_odds [-150, 130] =
      probability_to_american
        ((american_to_probability (-150) + american_to_probability 130) / 2) := by
  have h1 : calculate_consensus_odds [-150, 130] = -107 := by
    norm_num [calculate_consensus_odds, probability_to_american,
      american_to_probability, int_trunc, Int.ceil_eq_iff]
  have h2 : probability_to_american
      ((american_to_probability (-150) + american_to_probability 130) / 2) =
        -107 := by
    norm_num [probability_to_american, american_to_probability, int_trunc,
      Int.ceil_eq_iff]
  exact ⟨h1, by norm_num, by norm_num, by rw [h1, h2]⟩

/-! ### Claim C9 -/

/-- C9: the consensus of a nonempty list of nonzero American odds always has
absolute value at least 100 (in particular it is never 0), so the 0 returned
for an empty list is an unambiguous no-data sentinel; consequently, for any
player whose stored sides each carry such a consensus, the exporters'
truthiness test `if yes_odds and no_odds` (both `getConsensus` values
nonzero) holds exactly when both sides are present. -/
theorem consensus_nonzero_sentinel :
    (∀ l : List ℤ, l ≠ [] → (∀ o ∈ l, o ≠ 0) →
      100 ≤ |calculate_consensus_odds l| ∧ calculate_consensus_odds l ≠ 0) ∧
    (∀ p : Player,
      (∀ kv ∈ p.sides, ∃ l : List ℤ, l ≠ [] ∧ (∀ o ∈ l, o ≠ 0) ∧
          kv.2.consensus = calculate_consensus_odds l) →
      ((p.getConsensus "over_odds" ≠ 0 ∧ p.getConsensus "under_odds" ≠ 0) ↔
        ((p.getSide "over_odds").isSome ∧ (p.getSide "under_odds").isSome))) := by
  have partA : ∀ l : List ℤ, l ≠ [] → (∀ o ∈ l, o ≠ 0) →
      100 ≤ |calculate_consensus_odds l| ∧ calculate_consensus_odds l ≠ 0 := by
    intro l hne h
    have habs := consensus_abs_ge hne h
    refine ⟨habs, ?_⟩
    intro h0
    rw [h0] at habs
    simp at habs
  refine ⟨partA, ?_⟩
  intro p hp
  have key : ∀ k : String, (p.getConsensus k ≠ 0 ↔ (p.getSide k).isSome) := by
    intro k
    rw [Player.getConsensus]
    cases hfind : p.getSide k with
    | none => simp
    | some s =>
      simp only [Option.isSome_some, iff_true]
      obtain ⟨kv, hkv_find, hkv2⟩ := Option.map_eq_some'.mp hfind
      have hkv_mem : kv ∈ p.sides := List.mem_of_find?_eq_some hkv_find
      obtain ⟨l, hl1, hl2, hl3⟩ := hp kv hkv_mem
      have := (partA l hl1 hl2).2
      rw [← hkv2, hl3]
      exact this
  rw [key, key]

/-- Witness for C9 at the list `[-110]` and the sample player. -/
theorem consensus_nonzero_sentinel_witness :
    (100 ≤ |calculate_consensus_odds [-110]| ∧
      calculate_consensus_odds [-110] ≠ 0) ∧
    ((samplePlayer "P" (-110) (-110)).getConsensus "over_odds" ≠ 0 ∧
      (samplePlayer "P" (-110) (-110)).getConsensus "under_odds" ≠ 0) :=
  ⟨consensus_nonzero_sentinel.1 [-110] (by decide) (by decide),
   (consensus_nonzero_sentinel.2 (samplePlayer "P" (-110) (-110))
      (by
        intro kv hkv
        refine ⟨[-110], by decide, by decide, ?_⟩
        have : kv = ("over_odds", (⟨-110, [⟨"FanDuel", -110⟩]⟩ : OddsSide)) ∨
            kv = ("under_odds", (⟨-110, [⟨"FanDuel", -110⟩]⟩ : OddsSide)) := by
          simpa [samplePlayer] using hkv
        rcases this with rfl | rfl <;>
          (symm
           norm_num [calculate_consensus_odds, probability_to_american,
             american_to_probability, int_trunc, Int.ceil_eq_iff]))).mpr
     (by decide)⟩

/-! ### Helper lemmas about the Python-dict model and the merger -/

theorem pyUpsert_of_not_mem {α : Type} (d : List (String × α)) (k : String)
    (v : α) (h : ∀ kv ∈ d, kv.1 ≠ k) : pyUpsert d k v = d ++ [(k, v)] := by
  rw [pyUpsert, if_neg]
  intro hany
  obtain ⟨kv, hmem, heq⟩ := List.any_eq_true.mp hany
  exact h kv hmem (eq_of_beq heq)

theorem pyDict_aux (l : List Game) (acc : List (String × Game))
    (hnd : (l.map Game.game_id).Nodup)
    (hdisj : ∀ kv ∈ acc, ∀ g ∈ l, kv.1 ≠ g.game_id) :
    l.foldl (fun d g => pyUpsert d g.game_id g) acc =
      acc ++ l.map (fun g => (g.game_id, g)) := by
  induction l generalizing acc with
  | nil => simp
  | cons g t ih =>
    simp only [List.map_cons, List.nodup_cons] at hnd
    simp only [List.foldl_cons, List.map_cons]
    rw [pyUpsert_of_not_mem]
    · rw [ih (acc ++ [(g.game_id, g)]) hnd.2]
      · simp
      · intro kv hkv g' hg'
        rcases List.mem_append.mp hkv with hacc | hsing
        · exact hdisj kv hacc g' (List.mem_cons_of_mem _ hg')
        · have hk : kv.1 = g.game_id := by
            have : kv = (g.game_id, g) := by simpa using hsing
            rw [this]
          rw [hk]
          intro heq
          exact hnd.1 (heq ▸ List.mem_map_of_mem Game.game_id hg')
    · intro kv hkv
      exact hdisj kv hkv g (List.mem_cons_self g t)

theorem pyDict_eq (l : List Game) (hnd : (l.map Game.game_id).Nodup) :
    pyDict l = l.map (fun g => (g.game_id, g)) := by
  rw [pyDict, pyDict_aux l [] hnd (by simp)]
  simp

theorem dictFind_map_of_mem {l : List Game}
    (hnd : (l.map Game.game_id).Nodup) {g : Game} (hg : g ∈ l) :
    dictFind (l.map (fun g => (g.game_id, g))) g.game_id = some g := by
  induction l with
  | nil => cases hg
  | cons a t ih =>
    simp only [List.map_cons, List.nodup_cons] at hnd
    rcases List.mem_cons.mp hg with rfl | hgt
    · rw [List.map_cons, dictFind, List.find?_cons_of_pos _ (by simp)]
      rfl
    · have hbe : (a.game_id == g.game_id) = false := by
        rw [beq_eq_false_iff_ne]
        intro heq
        exact hnd.1 (heq ▸ List.mem_map_of_mem Game.game_id hgt)
      rw [List.map_cons, dictFind, List.find?_cons]
      simp only [hbe]
      have := ih hnd.2 hgt
      rw [dictFind] at this
      exact this

theorem dictFind_map_of_not_mem {l : List Game} {k : String}
    (hk : k ∉ l.map Game.game_id) :
    dictFind (l.map (fun g => (g.game_id, g))) k = none := by
  induction l with
  | nil => rfl
  | cons a t ih =>
    simp only [List.map_cons, List.mem_cons, not_or] at hk
    rw [List.map_cons, dictFind,
      List.find?_cons_of_neg _ (by simpa using Ne.symm hk.1)]
    exact ih hk.2

theorem mutateFresh_of_all_mem (cachedIds : List String) (l : List Game)
    (h : ∀ g ∈ l, g.game_id ∈ cachedIds) :
    mutateFresh cachedIds l = l := by
  induction l with
  | nil => rfl
  | cons g t ih =>
    rw [mutateFresh, if_neg (fun hc => hc.2 (h g (List.mem_cons_self g t))),
      ih (fun g' hg' => h g' (List.mem_cons_of_mem _ hg'))]

theorem mutateFresh_of_nodup (cachedIds : List String) (l : List Game)
    (hnd : (l.map Game.game_id).Nodup) :
    mutateFresh cachedIds l =
      l.map (fun g =>
        if g.game_id ∈ cachedIds then g
        else { g with odds_status := some "live" }) := by
  induction l with
  | nil => rfl
  | cons g t ih =>
    simp only [List.map_cons, List.nodup_cons] at hnd
    rw [mutateFresh, List.map_cons, ih hnd.2]
    congr 1
    by_cases hmem : g.game_id ∈ cachedIds
    · rw [if_neg (fun hc => hc.2 hmem), if_pos hmem]
    · rw [if_pos ⟨by simpa using hnd.1, hmem⟩, if_neg hmem]

/-- Unfolding lemma for the non-trivial branch of `merge_with_cached_data`. -/
theorem merge_some_eq (new cached : OddsData)
    (h : cached.games.isEmpty = false) :
    merge_with_cached_data new (some cached) =
      (let lookup := pyDict new.games
       let cachedIds := cached.games.map Game.game_id
       let mergedCached := cached.games.map (fun cg =>
         match dictFind lookup cg.game_id with
         | some g => g
         | none =>
             { cg with
               odds_status := some "cached"
               last_updated := some cached.metadata.generated_at })
       let newAdds := lookup.filterMap (fun kv =>
         if kv.1 ∈ cachedIds then none
         else some { kv.2 with odds_status := some "live" })
       let merged_games := mergedCached ++ newAdds
       ⟨{ new with
            games := merged_games
            summary := recomputeSummary merged_games },
        { new with games := mutateFresh cachedIds new.games },
        some cached⟩) := by
  rw [merge_with_cached_data, if_neg (by simp [h])]

/-! ### Claim C3 -/

/-- C3 counterexample: with no prior snapshot the fresh data is returned
unchanged, but its games carry no `odds_status` key at all (the processor
never sets one), so they are not tagged `'live'` as the claim states. -/
theorem merge_no_cache_counterexample :
    (merge_with_cached_data freshData none).result = freshData ∧
    freshData.games.map Game.odds_status = [none, none] ∧
    ((none : Option String) ≠ some "live") := by
  refine ⟨rfl, rfl, by simp⟩

/-- C3 amended: when the prior snapshot is absent or has no games,
`merge_with_cached_data` returns the fresh data unchanged (and mutates
nothing); each game keeps whatever `odds_status` it already had — no
`'live'` status is added. -/
theorem merge_no_cache (f : OddsData) (c : Option OddsData)
    (h : c = none ∨ ∃ d, c = some d ∧ d.games = []) :
    merge_with_cached_data f c = ⟨f, f, c⟩ ∧
    (merge_with_cached_data f c).result.games.map Game.odds_status =
      f.games.map Game.odds_status := by
  have h1 : merge_with_cached_data f c = ⟨f, f, c⟩ := by
    rcases h with rfl | ⟨d, rfl, hd⟩
    · rfl
    · simp [merge_with_cached_data, hd]
  exact ⟨h1, by rw [h1]⟩

/-- Witness for C3 amended on a prior snapshot with an empty games list. -/
theorem merge_no_cache_witness :
    merge_with_cached_data freshData
        (some ⟨metaPrior, ⟨0, 0, 0, none, none⟩, []⟩) =
      ⟨freshData, freshData, some ⟨metaPrior, ⟨0, 0, 0, none, none⟩, []⟩⟩ :=
  (merge_no_cache freshData (some ⟨metaPrior, ⟨0, 0, 0, none, none⟩, []⟩)
    (Or.inr ⟨_, rfl, rfl⟩)).1

/-! ### Claim C2 -/

/-- C2 counterexample: merging the snapshot `priorData` with itself returns
its games unchanged — and since those games carry no `odds_status`, no game
in the result is tagged `'live'`, contradicting the claim that every game is
so tagged. -/
theorem merge_self_counterexample :
    (merge_with_cached_data priorData (some priorData)).result.games =
      priorData.games ∧
    priorData.games.map Game.odds_status = [none, none] ∧
    ((none : Option String) ≠ some "live") := by
  refine ⟨by decide, rfl, by simp⟩

/-- C2 amended: merging a snapshot `S` (with a non-empty games list and
distinct game ids) with itself as both fresh and prior data returns games
identical to `S`'s — each keeping its original `odds_status`, so a game is
tagged `'live'` only if it already was in `S` — with `S`'s metadata, and
mutates neither argument. -/
theorem merge_self_identity (S : OddsData) (h1 : S.games ≠ [])
    (h2 : (S.games.map Game.game_id).Nodup) :
    (merge_with_cached_data S (some S)).result.games = S.games ∧
    (merge_with_cached_data S (some S)).result.metadata = S.metadata ∧
    (merge_with_cached_data S (some S)).new_after = S ∧
    (merge_with_cached_data S (some S)).cached_after = some S := by
  have hempty : S.games.isEmpty = false := by
    cases hS : S.games with
    | nil => exact absurd hS h1
    | cons a t => rfl
  rw [merge_some_eq S S hempty]
  simp only [pyDict_eq S.games h2]
  have hcached : S.games.map (fun cg =>
      match dictFind (S.games.map (fun g => (g.game_id, g))) cg.game_id with
      | some g => g
      | none =>
          { cg with
            odds_status := some "cached"
            last_updated := some S.metadata.generated_at }) = S.games := by
    rw [List.map_congr_left (g := fun cg => cg), List.map_id']
    intro cg hcg
    rw [dictFind_map_of_mem h2 hcg]
  have hadds : (S.games.map (fun g => (g.game_id, g))).filterMap (fun kv =>
      if kv.1 ∈ S.games.map Game.game_id then none
      else some { kv.2 with odds_status := some "live" }) = [] := by
    rw [List.filterMap_eq_nil_iff]
    intro kv hkv
    obtain ⟨g, hg, rfl⟩ := List.mem_map.mp hkv
    exact if_pos (List.mem_map_of_mem Game.game_id hg)
  have hmut : mutateFresh (S.games.map Game.game_id) S.games = S.games :=
    mutateFresh_of_all_mem _ _
      (fun g hg => List.mem_map_of_mem Game.game_id hg)
  simp only [hcached, hadds, hmut, List.append_nil]
  simp

/-- Witness for C2 amended at the two-game snapshot `priorData`. -/
theorem merge_self_identity_witness :
    (merge_with_cached_data priorData (some priorData)).new_after =
      priorData :=
  (merge_self_identity priorData (by decide) (by decide)).2.2.1

/-! ### Claim C1 -/

/-- C1 counterexample: in the {A, B} prior / {B updated, C} fresh scenario,
the merged result keeps B's fresh version without any `odds_status` tag (the
merger only tags brand-new games), so B is not tagged `'live'` and the
recomputed summary reports `live_games = 1`, not 2 as the claim states. -/
theorem merge_scenario_counterexample :
    (merge_with_cached_data freshData (some priorData)).result.summary.live_games =
      some 1 ∧
    (merge_with_cached_data freshData (some priorData)).result.games[1]? =
      some gameBFresh ∧
    gameBFresh.odds_status ≠ some "live" ∧
    (some 1 : Option ℕ) ≠ some 2 := by
  refine ⟨by decide, by decide, by decide, by decide⟩

/-- C1 amended: for a prior snapshot with games `[A, B]` and fresh data
`[B', C]` (ids as in the claim, fresh games carrying no `odds_status`, as the
processor produces them), the merged games are: A tagged `'cached'` with
`last_updated` copied from the prior metadata's `generated_at`, then B' — the
fresh version, with no `odds_status` tag added — and C tagged `'live'`; the
recomputed summary has `total_games = 3`, `live_games = 1` (only C) and
`cached_games = 1`. -/
theorem merge_scenario (A B Bf C : Game) (fm cm : Metadata) (fs cs : Summary)
    (hAB : A.game_id ≠ B.game_id)
    (hBf : Bf.game_id = B.game_id)
    (hCA : C.game_id ≠ A.game_id)
    (hCB : C.game_id ≠ B.game_id)
    (hBs : Bf.odds_status = none) :
    (merge_with_cached_data ⟨fm, fs, [Bf, C]⟩ (some ⟨cm, cs, [A, B]⟩)).result.games =
      [{ A with odds_status := some "cached",
                last_updated := some cm.generated_at },
       Bf,
       { C with odds_status := some "live" }] ∧
    (merge_with_cached_data ⟨fm, fs, [Bf, C]⟩ (some ⟨cm, cs, [A, B]⟩)).result.metadata = fm ∧
    (merge_with_cached_data ⟨fm, fs, [Bf, C]⟩ (some ⟨cm, cs, [A, B]⟩)).result.summary =
      { total_games := 3
        games_with_props := 3
        total_players := A.players.length + Bf.players.length + C.players.length
        live_games := some 1
        cached_games := some 1 } := by
  have hnd : (([Bf, C] : List Game).map Game.game_id).Nodup := by
    simp only [List.map_cons, List.map_nil]
    refine List.nodup_cons.mpr ⟨?_, List.nodup_singleton _⟩
    simp only [List.mem_singleton]
    rw [hBf]
    exact fun h => hCB (Eq.symm h)
  have e1 : (Bf.game_id == A.game_id) = false := by
    rw [beq_eq_false_iff_ne, hBf]
    exact fun h => hAB (Eq.symm h)
  have e2 : (C.game_id == A.game_id) = false :=
    beq_eq_false_iff_ne.mpr hCA
  have e3 : (Bf.game_id == B.game_id) = true := by
    rw [beq_iff_eq]
    exact hBf
  have m1 : Bf.game_id ∈ ([A, B].map Game.game_id) := by
    simp [hBf]
  have m2 : C.game_id ∉ ([A, B].map Game.game_id) := by
    simp [hCA, hCB]
  simp only [merge_some_eq ⟨fm, fs, [Bf, C]⟩ ⟨cm, cs, [A, B]⟩ rfl]
  rw [pyDict_eq _ hnd]
  simp only [List.map_cons, List.map_nil, dictFind, List.find?_cons, e1, e2, e3,
    List.find?_nil, List.filterMap_cons, List.filterMap_nil, m1, m2,
    recomputeSummary, hBs]
  refine ⟨?_, ?_, ?_⟩ <;>
    (simp [recomputeSummary, hBs, hBf, hCA, hCB]
     try omega)

/-- Witness for C1 amended at the concrete fixture games. -/
theorem merge_scenario_witness :
    (merge_with_cached_data freshData (some priorData)).result.games =
      [{ gameA with odds_status := some "cached",
                    last_updated := some metaPrior.generated_at },
       gameBFresh,
       { gameC with odds_status := some "live" }] :=
  (merge_scenario gameA gameB gameBFresh gameC metaFresh metaPrior
    ⟨2, 2, 2, none, none⟩ ⟨2, 2, 2, none, none⟩
    (by decide) (by decide) (by decide) (by decide) (by decide)).1

/-! ### Claim C10 -/

theorem newAdds_eq_filter (cachedIds : List String) (l : List Game) :
    (l.map (fun g => (g.game_id, g))).filterMap (fun kv =>
        if kv.1 ∈ cachedIds then none
        else some { kv.2 with odds_status := some "live" }) =
      (l.map (fun g =>
        if g.game_id ∈ cachedIds then g
        else { g with odds_status := some "live" })).filter
          (fun g => decide (g.game_id ∉ cachedIds)) := by
  induction l with
  | nil => rfl
  | cons g t ih =>
    simp only [List.map_cons, List.filterMap_cons, List.filter_cons]
    by_cases hmem : g.game_id ∈ cachedIds
    · rw [if_pos hmem, if_pos hmem]
      simp [hmem, ih]
    · rw [if_neg hmem, if_neg hmem]
      simp [hmem, ih]

/-- C10: `merge_with_cached_data` never mutates its prior-snapshot argument
(the post-call cached value is unchanged; preserved cached games are tagged
on copies), but it does mutate its fresh argument: every fresh game whose
`game_id` is absent from the prior snapshot gets `odds_status = 'live'`
written into the game dict itself, and the merged result's tail beyond the
cached games consists exactly of those mutated fresh game objects.  Stated
for the merging path (non-empty prior games) and fresh data with distinct
game ids. -/
theorem merge_mutation (new cached : OddsData)
    (h1 : cached.games ≠ [])
    (h2 : (new.games.map Game.game_id).Nodup) :
    (merge_with_cached_data new (some cached)).cached_after = some cached ∧
    (merge_with_cached_data new (some cached)).new_after.games =
      new.games.map (fun g =>
        if g.game_id ∈ cached.games.map Game.game_id then g
        else { g with odds_status := some "live" }) ∧
    (merge_with_cached_data new (some cached)).new_after.metadata =
      new.metadata ∧
    (merge_with_cached_data new (some cached)).result.games.drop
        cached.games.length =
      (merge_with_cached_data new (some cached)).new_after.games.filter
        (fun g => decide (g.game_id ∉ cached.games.map Game.game_id)) := by
  have hempty : cached.games.isEmpty = false := by
    cases hS : cached.games with
    | nil => exact absurd hS h1
    | cons a t => rfl
  simp only [merge_some_eq new cached hempty]
  refine ⟨trivial, mutateFresh_of_nodup _ _ h2, trivial, ?_⟩
  rw [mutateFresh_of_nodup _ _ h2, pyDict_eq _ h2]
  rw [show cached.games.length =
      (cached.games.map (fun cg =>
        match dictFind (new.games.map (fun g => (g.game_id, g))) cg.game_id with
        | some g => g
        | none =>
            { cg with
              odds_status := some "cached"
              last_updated := some cached.metadata.generated_at })).length
    from (List.length_map _ _).symm]
  rw [List.drop_left]
  exact newAdds_eq_filter _ _

/-- Witness for C10 at the fixture data. -/
theorem merge_mutation_witness :
    (merge_with_cached_data freshData (some priorData)).cached_after =
      some priorData ∧
    (merge_with_cached_data freshData (some priorData)).new_after.games =
      [gameBFresh, { gameC with odds_status := some "live" }] := by
  have h := merge_mutation freshData priorData (by decide) (by decide)
  refine ⟨h.1, ?_⟩
  rw [h.2.1]
  decide

/-! ### Claim C8 -/

theorem process_fold_spec (toIso toFmt : String → String) :
    ∀ (l : List RawGame) (acc : List Game × ℕ × ℕ),
      l.foldl (fun st g =>
        match processGame toIso toFmt g with
        | some gd => (st.1 ++ [gd], st.2.1 + 1, st.2.2 + gd.players.length)
        | none => st) acc =
      (acc.1 ++ l.filterMap (processGame toIso toFmt),
       acc.2.1 + (l.filter (fun g => hasTargetMarket g)).length,
       acc.2.2 + ((l.filterMap (processGame toIso toFmt)).map
         (fun g => g.players.length)).sum) := by
  intro l
  induction l with
  | nil =>
    intro acc
    simp
  | cons g t ih =>
    intro acc
    simp only [List.foldl_cons]
    cases hpg : processGame toIso toFmt g with
    | none =>
      have hmk : hasTargetMarket g = false := by
        by_contra hng
        rw [processGame, if_pos (by simpa using hng)] at hpg
        cases hpg
      simp only [hpg]
      rw [ih]
      simp [List.filterMap_cons, hpg, List.filter_cons, hmk]
    | some gd =>
      have hmk : hasTargetMarket g = true := by
        by_contra hng
        rw [processGame, if_neg (by simpa using hng)] at hpg
        cases hpg
      simp only [hpg]
      rw [ih]
      simp only [List.filterMap_cons, hpg, List.filter_cons, hmk, if_true,
        List.length_cons, List.map_cons, List.sum_cons, List.append_assoc,
        List.singleton_append, Prod.mk.injEq]
      refine ⟨trivial, by omega, by omega⟩

/-- C8: `process_home_run_props` is total (no input game can make it raise);
its games list is a per-game `filterMap`, so a game whose bookmaker data has
no entry for the target market is skipped (`processGame` returns `none`
exactly for such games) without affecting any other game; the summary counts
every input game in `total_games` but only games with the target market in
`games_with_props`; and the result always carries the metadata, summary and
games fields of a well-formed (possibly empty) snapshot. -/
theorem processor_skips_gracefully (generated_at date : String)
    (toIso toFmt : String → String) (games_data : List RawGame) :
    (process_home_run_props generated_at date toIso toFmt games_data).games =
      games_data.filterMap (processGame toIso toFmt) ∧
    (∀ g : RawGame,
      (processGame toIso toFmt g = none ↔ hasTargetMarket g = false)) ∧
    (process_home_run_props generated_at date toIso toFmt
        games_data).summary.total_games = games_data.length ∧
    (process_home_run_props generated_at date toIso toFmt
        games_data).summary.games_with_props =
      (games_data.filter (fun g => hasTargetMarket g)).length ∧
    (process_home_run_props generated_at date toIso toFmt
        games_data).summary.total_players =
      ((games_data.filterMap (processGame toIso toFmt)).map
        (fun g => g.players.length)).sum ∧
    (process_home_run_props generated_at date toIso toFmt games_data).metadata =
      ⟨generated_at, date, "US/Eastern", SPORT, MARKETS⟩ := by
  have hiff : ∀ g : RawGame,
      (processGame toIso toFmt g = none ↔ hasTargetMarket g = false) := by
    intro g
    by_cases h : hasTargetMarket g <;> simp [processGame, h]
  have hfold := process_fold_spec toIso toFmt games_data ([], 0, 0)
  refine ⟨?_, hiff, ?_, ?_, ?_, ?_⟩
  · simp only [process_home_run_props]
    rw [hfold]
    simp
  · rfl
  · simp only [process_home_run_props]
    rw [hfold]
    simp
  · simp only [process_home_run_props]
    rw [hfold]
    simp
  · rfl

/-! ### Claim C7: comparator and best-price lemmas -/

theorem rowLE_trans (a b c : BestOddsRow) (h1 : rowLE a b = true)
    (h2 : rowLE b c = true) : rowLE a c = true := by
  simp only [rowLE, decide_eq_true_eq] at h1 h2 ⊢
  rcases h1 with h1 | ⟨h1e, h1n⟩ <;> rcases h2 with h2 | ⟨h2e, h2n⟩
  · exact Or.inl (lt_trans h2 h1)
  · exact Or.inl (h2e ▸ h1)
  · exact Or.inl (by rw [h1e]; exact h2)
  · exact Or.inr ⟨h1e.trans h2e, le_trans h1n h2n⟩

theorem rowLE_total (a b : BestOddsRow) : (rowLE a b || rowLE b a) = true := by
  simp only [rowLE, Bool.or_eq_true, decide_eq_true_eq]
  rcases lt_trichotomy a.value_score b.value_score with h | h | h
  · exact Or.inr (Or.inl h)
  · rcases le_total a.player_name b.player_name with hn | hn
    · exact Or.inl (Or.inr ⟨h, hn⟩)
    · exact Or.inr (Or.inr ⟨h.symm, hn⟩)
  · exact Or.inl (Or.inl h)

theorem foldl_step_some (xs : List BookOdds) : ∀ x : BookOdds,
    xs.foldl (fun acc b =>
      match acc with
      | none => some b
      | some c => if c.odds < b.odds then some b else some c) (some x) =
    some (xs.foldl (fun c b => if c.odds < b.odds then b else c) x) := by
  induction xs with
  | nil =>
    intro x
    rfl
  | cons b t ih =>
    intro x
    simp only [List.foldl_cons]
    by_cases h : x.odds < b.odds
    · rw [if_pos h, if_pos h]
      exact ih b
    · rw [if_neg h, if_neg h]
      exact ih x

theorem firstMaxBy_cons (x : BookOdds) (xs : List BookOdds) :
    firstMaxBy (x :: xs) = some (maxAux x xs) := by
  rw [firstMaxBy, maxAux, List.foldl_cons]
  exact foldl_step_some xs x

theorem maxAux_spec (xs : List BookOdds) : ∀ x : BookOdds,
    (∃ l₁ l₂, x :: xs = l₁ ++ maxAux x xs :: l₂ ∧
      ∀ y ∈ l₁, y.odds < (maxAux x xs).odds) ∧
    (∀ y ∈ x :: xs, y.odds ≤ (maxAux x xs).odds) := by
  induction xs with
  | nil =>
    intro x
    refine ⟨⟨[], [], rfl, by simp⟩, ?_⟩
    intro y hy
    rw [List.mem_singleton.mp hy]
    exact le_refl _
  | cons b t ih =>
    intro x
    have hstep : maxAux x (b :: t) = maxAux (if x.odds < b.odds then b else x) t := by
      rw [maxAux, maxAux, List.foldl_cons]
    by_cases h : x.odds < b.odds
    · rw [hstep, if_pos h]
      obtain ⟨⟨l₁, l₂, hdec, hlt⟩, hle⟩ := ih b
      have hbm : b.odds ≤ (maxAux b t).odds := hle b (List.mem_cons_self b t)
      refine ⟨⟨x :: l₁, l₂, ?_, ?_⟩, ?_⟩
      · rw [List.cons_append, ← hdec]
      · intro y hy
        rcases List.mem_cons.mp hy with rfl | hyl
        · exact lt_of_lt_of_le h hbm
        · exact hlt y hyl
      · intro y hy
        rcases List.mem_cons.mp hy with rfl | hyt
        · exact le_of_lt (lt_of_lt_of_le h hbm)
        · exact hle y hyt
    · rw [hstep, if_neg h]
      obtain ⟨⟨l₁, l₂, hdec, hlt⟩, hle⟩ := ih x
      have hbx : b.odds ≤ x.odds := le_of_not_lt h
      have hxm : x.odds ≤ (maxAux x t).odds := hle x (List.mem_cons_self x t)
      cases l₁ with
      | nil =>
        simp only [List.nil_append] at hdec
        have hxm' : x = maxAux x t := (List.cons_eq_cons.mp hdec).1
        refine ⟨⟨[], b :: t, ?_, by simp⟩, ?_⟩
        · rw [List.nil_append, ← hxm']
        · intro y hy
          rcases List.mem_cons.mp hy with rfl | hyt
          · exact hxm
          · rcases List.mem_cons.mp hyt with rfl | hyt'
            · exact le_trans hbx hxm
            · exact hle y (List.mem_cons_of_mem _ hyt')
      | cons a l₁t =>
        have hxa : x = a := (List.cons_eq_cons.mp hdec).1
        have ht : t = l₁t ++ maxAux x t :: l₂ := (List.cons_eq_cons.mp hdec).2
        have hxlt : x.odds < (maxAux x t).odds := by
          have := hlt a (List.mem_cons_self a l₁t)
          rw [← hxa] at this
          exact this
        refine ⟨⟨x :: b :: l₁t, l₂, ?_, ?_⟩, ?_⟩
        · conv_lhs => rw [ht]
          simp
        · intro y hy
          rcases List.mem_cons.mp hy with rfl | hyb
          · exact hxlt
          · rcases List.mem_cons.mp hyb with rfl | hyl
            · exact lt_of_le_of_lt hbx hxlt
            · exact hlt y (List.mem_cons_of_mem _ hyl)
        · intro y hy
          rcases List.mem_cons.mp hy with rfl | hyb
          · exact hxm
          · rcases List.mem_cons.mp hyb with rfl | hyt'
            · exact le_trans hbx hxm
            · exact hle y (List.mem_cons_of_mem _ hyt')

/-- The specification of `firstMaxBy`: it returns an element of the list that
is maximal in odds and is the first maximal element (everything strictly
before it is strictly smaller). -/
theorem firstMaxBy_spec (l : List BookOdds) (b : BookOdds)
    (h : firstMaxBy l = some b) :
    b ∈ l ∧ (∀ x ∈ l, x.odds ≤ b.odds) ∧
    ∃ l₁ l₂, l = l₁ ++ b :: l₂ ∧ ∀ x ∈ l₁, x.odds < b.odds := by
  cases l with
  | nil => cases h
  | cons x xs =>
    rw [firstMaxBy_cons] at h
    have hb : maxAux x xs = b := Option.some.inj h
    obtain ⟨⟨l₁, l₂, hdec, hlt⟩, hle⟩ := maxAux_spec xs x
    rw [hb] at hdec hlt hle
    refine ⟨?_, hle, l₁, l₂, hdec, hlt⟩
    rw [hdec]
    exact List.mem_append_right _ (List.mem_cons_self _ _)

theorem firstMaxBy_isSome (l : List BookOdds) (h : l ≠ []) :
    (firstMaxBy l).isSome = true := by
  cases l with
  | nil => exact absurd rfl h
  | cons x xs =>
    rw [firstMaxBy_cons]
    rfl

/-- Membership characterization of the unsorted row list. -/
theorem mem_bestOddsRows (data : OddsData) (r : BestOddsRow) :
    r ∈ bestOddsRows data ↔
      ∃ g ∈ data.games, ∃ p ∈ g.players,
        (p.getConsensus "over_odds" ≠ 0 ∧ p.getConsensus "under_odds" ≠ 0) ∧
        r = mkBestOddsRow g p := by
  rw [bestOddsRows]
  constructor
  · intro hr
    obtain ⟨g, hg, hr2⟩ := List.mem_flatMap.mp hr
    obtain ⟨p, hp, hr3⟩ := List.mem_filterMap.mp hr2
    by_cases hc : p.getConsensus "over_odds" ≠ 0 ∧ p.getConsensus "under_odds" ≠ 0
    · rw [if_pos hc] at hr3
      exact ⟨g, hg, p, hp, hc, (Option.some.inj hr3).symm⟩
    · rw [if_neg hc] at hr3
      cases hr3
  · rintro ⟨g, hg, p, hp, hc, rfl⟩
    refine List.mem_flatMap.mpr ⟨g, hg, List.mem_filterMap.mpr ⟨p, hp, ?_⟩⟩
    rw [if_pos hc]

/-- C7: for every merged data structure, `create_best_odds_dataset` emits the
rows of exactly those (game, player) pairs whose two consensus sides are
nonzero (players lacking a side are excluded), ordered by descending
`value_score` with ascending `player_name` as tie-break; each row's per-side
`best_odds` entry is `firstMaxBy` of that side's book list — an element of
maximal odds, the earliest such in original list order — and its
`value_score` is the magnitude of the yes side if it exceeds +150, else of
the no side if it exceeds +150, else 0. -/
theorem best_odds_dataset_spec (data : OddsData) :
    ((create_best_odds_dataset data).players.Pairwise (fun a b =>
        b.value_score < a.value_score ∨
          (a.value_score = b.value_score ∧ a.player_name ≤ b.player_name))) ∧
    ((create_best_odds_dataset data).players.Perm (bestOddsRows data)) ∧
    (∀ g ∈ data.games, ∀ p ∈ g.players,
      (p.getConsensus "over_odds" ≠ 0 ∧ p.getConsensus "under_odds" ≠ 0) →
        mkBestOddsRow g p ∈ (create_best_odds_dataset data).players) ∧
    (∀ r ∈ (create_best_odds_dataset data).players,
      r.consensus_yes ≠ 0 ∧ r.consensus_no ≠ 0) ∧
    (∀ (g : Game) (p : Player) (b : BookOdds),
      firstMaxBy (p.sideBooks "over_odds") = some b →
        (mkBestOddsRow g p).best_yes = b) ∧
    (∀ (g : Game) (p : Player) (b : BookOdds),
      firstMaxBy (p.sideBooks "under_odds") = some b →
        (mkBestOddsRow g p).best_no = b) ∧
    (∀ (l : List BookOdds) (b : BookOdds), firstMaxBy l = some b →
      b ∈ l ∧ (∀ x ∈ l, x.odds ≤ b.odds) ∧
      ∃ l₁ l₂, l = l₁ ++ b :: l₂ ∧ ∀ x ∈ l₁, x.odds < b.odds) ∧
    (∀ l : List BookOdds, l ≠ [] → (firstMaxBy l).isSome = true) ∧
    (∀ r ∈ (create_best_odds_dataset data).players,
      r.value_score =
        if 150 < r.consensus_yes then |r.consensus_yes|
        else if 150 < r.consensus_no then |r.consensus_no| else 0) := by
  have hmem : ∀ r : BestOddsRow,
      r ∈ (create_best_odds_dataset data).players ↔ r ∈ bestOddsRows data := by
    intro r
    exact List.mem_mergeSort
  refine ⟨?_, ?_, ?_, ?_, ?_, ?_, firstMaxBy_spec, firstMaxBy_isSome, ?_⟩
  · exact (List.sorted_mergeSort rowLE_trans rowLE_total
      (bestOddsRows data)).imp (fun hab => of_decide_eq_true hab)
  · exact List.mergeSort_perm (bestOddsRows data) rowLE
  · intro g hg p hp hc
    exact (hmem _).mpr ((mem_bestOddsRows data _).mpr ⟨g, hg, p, hp, hc, rfl⟩)
  · intro r hr
    obtain ⟨g, hg, p, hp, hc, rfl⟩ :=
      (mem_bestOddsRows data r).mp ((hmem r).mp hr)
    exact hc
  · intro g p b hb
    simp [mkBestOddsRow, hb]
  · intro g p b hb
    simp [mkBestOddsRow, hb]
  · intro r hr
    obtain ⟨g, hg, p, hp, hc, rfl⟩ :=
      (mem_bestOddsRows data r).mp ((hmem r).mp hr)
    simp [mkBestOddsRow]

/-- Witness for C7 at the one-game fixture: the sample player has both sides,
so its row appears among the exported players. -/
theorem best_odds_dataset_spec_witness :
    mkBestOddsRow gameA (samplePlayer "Player A" 200 (-260)) ∈
      (create_best_odds_dataset bestOddsFixture).players :=
  (best_odds_dataset_spec bestOddsFixture).2.2.1 gameA (by decide)
    (samplePlayer "Player A" 200 (-260)) (by decide) (by decide)

end HomeRunOdds
